import Mathlib

/-
Verification development for the energy-efficiency rating dashboard (elex.py)
of the ml-energy-efficiency repository.

The dashboard file elex.py is embedded directly.  The rating engine it calls
(the functions imported from mlee.ratings: rate_results,
calculate_compound_rating, update_weights, load_boundaries,
calculate_optimal_boundaries) is not part of the available sources, so those
functions are modelled from the specification; each such definition carries a
doc comment beginning with the words Modelled from the spec.

Numbers are modelled as rationals.  Python dictionaries are modelled as
association lists that keep insertion order, Python None as Option.
-/

namespace Elex

/-! ## Data model -/

/-- Per-metric record of a Summary: raw measurement value, normalized index,
discrete rating bin and metric weight.  Any of value, index, rating may be
absent (Python None). -/
structure MRec where
  value : Option ℚ
  index : Option ℚ
  rating : Option ℕ
  weight : ℚ
deriving DecidableEq

/-- A Summary: one model in one environment, with its per-metric records
(a Python dict keyed by metric identifier, modelled as an association list). -/
structure Summary where
  name : String
  environment : String
  metrics : List (String × MRec)
deriving DecidableEq

/-- Per-metric boundary intervals: in the store each metric maps to a list of
five pairs, one per bin A..E, element 0 being the upper edge of the interval
on the index axis and element 1 the lower edge (see elex.py lines 273-275 and
286-288, which read pair component 0 as the slider-facing cut value). -/
abbrev BIntervals := List (ℚ × ℚ)

/-- The boundary store: metric identifier to its five intervals. -/
abbrev BStore := List (String × BIntervals)

/-- self.summaries in elex.py: task name to environment name to summaries. -/
abbrev TaskMap := List (String × List (String × List Summary))

/-- The mutable session state of the Visualization object (elex.py lines
93-99), restricted to the fields the rating pipeline reads and writes. -/
structure VisState where
  summaries : TaskMap
  boundaries : BStore
  task : String
  xaxis : String
  yaxis : String
  referenceName : String
deriving DecidableEq

/-- First-match association-list lookup (Python dict read d[k]). -/
def lookupStr (m : String) : List (String × α) → Option α
  | [] => none
  | (k, v) :: r => if k = m then some v else lookupStr m r

/-- Replace the first entry with the given key (Python dict write d[k] = v,
which keeps insertion order). -/
def storeSet (k : String) (v : α) : List (String × α) → List (String × α)
  | [] => []
  | (k1, v1) :: r => if k1 = k then (k, v) :: r else (k1, v1) :: storeSet k v r

/-! ## Evaluable rational arithmetic

The Mul, Div and Add operations on ℚ are irreducible in this toolchain, so
concrete instances could not be checked by evaluation if the engine used
them directly.  The engine therefore uses the following wrappers built on
Rat.divInt, which do evaluate; the theorems qmul_eq, qdiv_eq, qadd_eq and
qsum_eq below prove each wrapper equal to the corresponding field
operation, so the embedding still denotes ordinary rational arithmetic. -/

/-- Rational multiplication, definitionally evaluable. -/
def qmul (a b : ℚ) : ℚ := Rat.divInt (a.num * b.num) (a.den * b.den)

/-- Rational division (zero for a zero divisor, like the field operation),
definitionally evaluable. -/
def qdiv (a b : ℚ) : ℚ := Rat.divInt (a.num * b.den) (a.den * b.num)

/-- Rational addition, definitionally evaluable. -/
def qadd (a b : ℚ) : ℚ := Rat.divInt (a.num * b.den + a.den * b.num) (a.den * b.den)

/-- Sum of a list of rationals, definitionally evaluable. -/
def qsum (l : List ℚ) : ℚ := List.foldr qadd 0 l

/-- The four target cumulative fractions 0.8, 0.6, 0.4, 0.2 passed to the
boundary calibrator (elex.py line 266), written with Rat.divInt so they
evaluate; targetFracs_eq identifies them with the division literals. -/
def targetFracs : List ℚ :=
  [Rat.divInt 8 10, Rat.divInt 6 10, Rat.divInt 4 10, Rat.divInt 2 10]

/-! ## Modelled rating engine -/

/-- Modelled from the spec: the process-wide metric catalog direction (spec
section 3); accuracy metrics are higher-is-better, resource metrics
lower-is-better.  The direction table itself lives in mlee.ratings, which is
not among the available sources. -/
def higherBetter (m : String) : Bool := m == "top1_val" || m == "top5_val"

/-- The four cut points of a metric, read off the interval store: the lower
edges of bins A..D (equivalently the upper edges of bins B..E). -/
def cutsOf (b : BIntervals) : List ℚ := (b.take 4).map Prod.snd

/-- Modelled from the spec: RatingClassifier.classify (spec section 4.2).
Given the four cut points in decreasing order, bin 0 is assigned once the
index exceeds the largest cut point, down to bin 4 for an index at or below
the smallest cut point; total over the rationals, saturating at both ends. -/
def classify (cuts : List ℚ) (i : ℚ) : ℕ := cuts.countP (fun b => decide (i ≤ b))

/-- Modelled from the spec: the per-record step of mlee.ratings.rate_results
(spec sections 4.1 and 4.2).  The index is the reference value divided by the
value for lower-is-better metrics and the value divided by the reference value
for higher-is-better ones; an absent value or an absent or zero reference
yields an absent index, and the rating is the classification of the index
when both the index and the metric boundaries are present.  Raw value and
weight are preserved. -/
def rateRec (cuts : Option (List ℚ)) (refVal : Option ℚ) (dir : Bool) (r : MRec) : MRec :=
  let idx : Option ℚ :=
    match r.value, refVal with
    | some v, some rv => if rv = 0 then none else some (if dir then qdiv v rv else qdiv rv v)
    | _, _ => none
  { value := r.value
    index := idx
    rating := match idx, cuts with
              | some i, some cs => some (classify cs i)
              | _, _ => none
    weight := r.weight }

/-- Modelled from the spec: rate one Summary against the reference model
metrics and the boundary store. -/
def rateSummary (bs : BStore) (rm : List (String × MRec)) (s : Summary) : Summary :=
  { s with metrics := s.metrics.map (fun kv =>
      (kv.1, rateRec ((lookupStr kv.1 bs).map cutsOf)
                     ((lookupStr kv.1 rm).bind MRec.value)
                     (higherBetter kv.1) kv.2)) }

/-- Modelled from the spec: rate one environment; the reference record set is
taken from the summary whose name is the reference model name. -/
def rateEnv (bs : BStore) (ref : String) (ss : List Summary) : List Summary :=
  let rm := ((ss.find? (fun s => s.name == ref)).map Summary.metrics).getD []
  ss.map (rateSummary bs rm)

/-- Modelled from the spec: mlee.ratings.rate_results, the full
reclassification pass over the corpus (spec sections 4.1, 4.2 and 5): for
every task and environment, every index and rating is recomputed from the raw
values and the given boundaries; weights and raw values persist. -/
def rate_results (S : TaskMap) (ref : String) (bs : BStore) : TaskMap :=
  S.map (fun te => (te.1, te.2.map (fun ev => (ev.1, rateEnv bs ref ev.2))))

/-- The closed enumeration of the six rating modes (spec section 3). -/
inductive RMode where
  | best | worst | meanOpt | meanPes | medOpt | medPes
deriving DecidableEq

/-- Per-character lowercasing of a string (the canonicalization applied to
mode identifiers), written over the character list so that it evaluates. -/
def lowerStr (s : String) : String := String.mk (s.data.map Char.toLower)

/-- Modelled from the spec: the aggregator canonicalizes the mode identifier
by lowercasing and accepts exactly the six labels (spec section 6). -/
def parseMode (s : String) : Option RMode :=
  match lowerStr s with
  | "best" => some RMode.best
  | "worst" => some RMode.worst
  | "optimistic mean" => some RMode.meanOpt
  | "pessimistic mean" => some RMode.meanPes
  | "optimistic median" => some RMode.medOpt
  | "pessimistic median" => some RMode.medPes
  | _ => none

/-- The rating and weight pairs of the metrics with a present rating; absent
ratings are excluded (spec section 4.4). -/
def ratingWeightPairs (s : Summary) : List (ℕ × ℚ) :=
  s.metrics.filterMap (fun kv => kv.2.rating.map (fun rt => (rt, kv.2.weight)))

/-- Cumulative weight of the pairs whose rating is at most k. -/
def cumW (pairs : List (ℕ × ℚ)) (k : ℕ) : ℚ :=
  qsum ((pairs.filter (fun q => decide (q.1 ≤ k))).map Prod.snd)

/-- Modelled from the spec: the per-mode aggregation (spec section 4.4).
A summary with no present rating has no compound rating. -/
def aggregate (md : RMode) (pairs : List (ℕ × ℚ)) : Option ℕ :=
  match pairs with
  | [] => none
  | p :: rest =>
    let all := p :: rest
    let W : ℚ := qsum (all.map Prod.snd)
    let wsum : ℚ := qsum (all.map (fun q => qmul (q.1 : ℚ) q.2))
    some (match md with
      | RMode.best => List.foldl min p.1 (rest.map Prod.fst)
      | RMode.worst => List.foldl max p.1 (rest.map Prod.fst)
      | RMode.meanOpt => if W = 0 then 0 else (Rat.floor (qdiv wsum W)).toNat
      | RMode.meanPes => if W = 0 then 0 else (Rat.ceil (qdiv wsum W)).toNat
      | RMode.medOpt => (((List.range 5).find? (fun k => decide (qdiv W 2 ≤ cumW all k))).getD 4)
      | RMode.medPes => (((List.range 5).find? (fun k => decide (qdiv W 2 < cumW all k))).getD 4))

/-- Modelled from the spec: mlee.ratings.calculate_compound_rating on a
Summary (spec section 4.4): parse the mode label, collect the present
rating and weight pairs, aggregate. -/
def calculate_compound_rating (s : Summary) (mode : String) : Option ℕ :=
  (parseMode mode).bind (fun md => aggregate md (ratingWeightPairs s))

/-- The two call forms of mlee.ratings.update_weights seen in elex.py: a
scalar weight for one metric (elex.py lines 229 and 231) or a full map
(elex.py line 321). -/
inductive WArg where
  | single (w : ℚ) (metric : String)
  | bulk (wm : List (String × ℚ))

/-- The new weight of metric m under a weight update, as a function of the
old weight. -/
def wAfter (a : WArg) (m : String) (q : ℚ) : ℚ :=
  match a with
  | WArg.single w m1 => if m = m1 then w else q
  | WArg.bulk wm => match lookupStr m wm with
                    | some w => w
                    | none => q

/-- Modelled from the spec: the per-summary effect of
mlee.ratings.update_weights (spec section 4.3): only the weight fields
change, every other field is preserved. -/
def applyW (a : WArg) (s : Summary) : Summary :=
  { s with metrics := s.metrics.map (fun kv =>
      (kv.1, { kv.2 with weight := wAfter a kv.1 kv.2.weight })) }

/-- Modelled from the spec: mlee.ratings.update_weights over the whole
session corpus, returning the updated summaries as a new value. -/
def update_weights (S : TaskMap) (a : WArg) : TaskMap :=
  S.map (fun te => (te.1, te.2.map (fun ev => (ev.1, ev.2.map (applyW a)))))

/-- Strictly descending rational list. -/
def strictDescB : List ℚ → Bool
  | [] => true
  | [_] => true
  | a :: b :: r => (decide (b < a)) && strictDescB (b :: r)

/-- Strictly ascending rational list. -/
def strictAscB : List ℚ → Bool
  | [] => true
  | [_] => true
  | a :: b :: r => (decide (a < b)) && strictAscB (b :: r)

/-- A valid imported boundary entry: exactly four cut points, strictly
monotonic in the direction of decreasing desirability. -/
def validCuts (cs : List ℚ) : Bool := (cs.length == 4) && strictDescB cs

/-- Sentinel outer edge used above the best bin when building intervals from
four cut points; classification reads only the four shared cut points. -/
def outerTop : ℚ := 100000000

/-- Sentinel outer edge used below the worst bin. -/
def outerBot : ℚ := -100000000

/-- Build the five interval pairs from four cut points in decreasing order;
adjacent intervals share their endpoint by construction. -/
def intervalsFromCuts : List ℚ → BIntervals
  | [c0, c1, c2, c3] => [(outerTop, c0), (c0, c1), (c1, c2), (c2, c3), (c3, outerBot)]
  | _ => []

/-- Modelled from the spec: mlee.ratings.load_boundaries, the import decoder
(spec section 6): each entry mapping a metric to four cut points is validated
for strict monotonicity; a malformed entry is rejected, never reordered, and
its metric identifier is reported, while every valid entry is applied. -/
def load_boundaries : List (String × List ℚ) → BStore × List String
  | [] => ([], [])
  | (m, cs) :: rest =>
    let r := load_boundaries rest
    if validCuts cs then ((m, intervalsFromCuts cs) :: r.1, r.2)
    else (r.1, m :: r.2)

/-- Insert into a descending-sorted list. -/
def insertDesc (x : ℚ) : List ℚ → List ℚ
  | [] => [x]
  | y :: r => if y < x then x :: y :: r else y :: insertDesc x r

/-- Sort a list of rationals in descending order. -/
def sortDesc (l : List ℚ) : List ℚ := List.foldr insertDesc [] l

/-- Every summary of every task and environment, flattened. -/
def allSummaries (S : TaskMap) : List Summary :=
  (((S.map Prod.snd).flatten).map Prod.snd).flatten

/-- The present index values of one metric across the whole corpus. -/
def corpusIndices (S : TaskMap) (m : String) : List ℚ :=
  (allSummaries S).filterMap (fun s => (lookupStr m s.metrics).bind MRec.index)

/-- The metric identifiers occurring anywhere in the corpus. -/
def metricKeys (S : TaskMap) : List String :=
  (((allSummaries S).map (fun s => s.metrics.map Prod.fst)).flatten).dedup

/-- A degenerate corpus for calibration: empty, or some metric with fewer
than two distinct index values (spec sections 4.5 and 7). -/
def degenerateCorpus (S : TaskMap) : Bool :=
  (allSummaries S).isEmpty
    || (metricKeys S).any (fun m => decide ((corpusIndices S m).dedup.length < 2))

/-- Modelled from the spec: the empirical-quantile cut points of
BoundaryCalibrator (spec section 4.5): sort the corpus descending and take,
for each target fraction, the observed value at the corresponding rank
without interpolation; the resulting cut list is returned in decreasing
order for target fractions given as 0.8, 0.6, 0.4, 0.2. -/
def calCuts (xs : List ℚ) (fracs : List ℚ) : List ℚ :=
  let sorted := sortDesc xs
  let N := sorted.length
  (fracs.map (fun f => sorted.getD (min (Rat.floor (qmul f (N : ℚ))).toNat (N - 1)) 0)).reverse

/-- Modelled from the spec: mlee.ratings.calculate_optimal_boundaries (spec
sections 4.5 and 7): a degenerate corpus signals InsufficientData; otherwise
every metric present in the corpus gets empirical-quantile cut points. -/
def calculate_optimal_boundaries (S : TaskMap) (fracs : List ℚ) : Except String BStore :=
  if degenerateCorpus S then Except.error "InsufficientData"
  else Except.ok ((metricKeys S).map (fun m =>
    (m, intervalsFromCuts (calCuts (corpusIndices S m) fracs))))

/-! ## Dashboard embeddings (elex.py) -/

/-- Write component 0 of the interval at position i (one Python assignment
boundaries[axis][i][0] = v). -/
def setFst (l : BIntervals) (i : ℕ) (v : ℚ) : BIntervals :=
  match l.get? i with
  | some p => l.set i (v, p.2)
  | none => l

/-- Write component 1 of the interval at position i (one Python assignment
boundaries[axis][i][1] = v). -/
def setSnd (l : BIntervals) (i : ℕ) (v : ℚ) : BIntervals :=
  match l.get? i with
  | some p => l.set i (p.1, v)
  | none => l

/-- The slider loop of Visualization.update_boundaries for one axis (elex.py
lines 285-289): for each slider position i with value v, when the stored cut
boundaries[axis][4-i][0] differs from v, write v to boundaries[axis][4-i][0]
and to boundaries[axis][3-i][1] and remember that an update happened.
Returns the final intervals and the update flag. -/
def slideRun (b : BIntervals) (nec : Bool) (i : ℕ) : List ℚ → BIntervals × Bool
  | [] => (b, nec)
  | v :: rest =>
    if (b.get? (4 - i)).map Prod.fst = some v then slideRun b nec (i + 1) rest
    else slideRun (setSnd (setFst b (4 - i) v) (3 - i) v) true (i + 1) rest

/-- The same loop as slideRun, recording the store after every single
elementary assignment: each fired iteration contributes the state after the
first write (line 287) and the state after the second write (line 288). -/
def slideSteps (b : BIntervals) (i : ℕ) : List ℚ → List BIntervals
  | [] => []
  | v :: rest =>
    if (b.get? (4 - i)).map Prod.fst = some v then slideSteps b (i + 1) rest
    else
      let b1 := setFst b (4 - i) v
      let b2 := setSnd b1 (3 - i) v
      b1 :: b2 :: slideSteps b2 (i + 1) rest

/-- One axis of Visualization.update_boundaries: final intervals and flag. -/
def slideAxis (b : BIntervals) (vals : List ℚ) : BIntervals × Bool :=
  slideRun b false 0 vals

/-- The axis loop of Visualization.update_boundaries (elex.py line 284):
process the axes in order over the shared store, accumulating the flag. -/
def slideStore (bs : BStore) : List (String × List ℚ) → BStore × Bool
  | [] => (bs, false)
  | (ax, vals) :: rest =>
    match lookupStr ax bs with
    | none => slideStore bs rest
    | some b =>
      let r1 := slideAxis b vals
      let r2 := slideStore (storeSet ax r1.1 bs) rest
      (r2.1, r1.2 || r2.2)

/-- Visualization.update_boundaries (elex.py lines 281-291): run the slider
loop over the x and y axes and, when any cut point changed, run the full
reclassification pass rate_results with the updated boundaries. -/
def update_boundaries (st : VisState) (xs ys : List ℚ) : VisState :=
  let r := slideStore st.boundaries [(st.xaxis, xs), (st.yaxis, ys)]
  if r.2 then
    { st with boundaries := r.1,
              summaries := rate_results st.summaries st.referenceName r.1 }
  else { st with boundaries := r.1 }

/-- The optimal-boundary branch of Visualization.update_boundary_sliders
(elex.py lines 265-267): call the calibrator with the four target fractions
0.8, 0.6, 0.4, 0.2, assign the result and re-rate the whole corpus.  A
calibration error propagates as a Python exception, so no assignment to the
session state happens in that case. -/
def calcBoundsBranch (st : VisState) : Except String VisState :=
  match calculate_optimal_boundaries st.summaries targetFracs with
  | Except.error e => Except.error e
  | Except.ok b => Except.ok
      { st with boundaries := b,
                summaries := rate_results st.summaries st.referenceName b }

/-- The session state after the optimal-boundary branch: Dash swallows a
callback exception, so on error the state object is left untouched. -/
def calcBranchState (st : VisState) : VisState :=
  match calcBoundsBranch st with
  | Except.ok st1 => st1
  | Except.error _ => st

/-- The boundaries-import branch of Visualization.update_boundary_sliders
(elex.py lines 261-264): decode the payload, replace the store and re-rate
the whole corpus. -/
def importBoundsBranch (st : VisState) (payload : List (String × List ℚ)) : VisState :=
  let b := (load_boundaries payload).1
  { st with boundaries := b,
            summaries := rate_results st.summaries st.referenceName b }

/-- The rating-mode fallback of Visualization.update_figures (elex.py line
236) and Visualization.display_model (elex.py line 303): a missing mode
value becomes the bare string mean. -/
def resolveRatingMode (m : Option String) : String := m.getD "mean"

/-- The displayed rating-mode labels of the dashboard (elex.py line 221). -/
def ratingModeLabels : List String :=
  ["Optimistic Median", "Pessimistic Median", "Optimistic Mean",
   "Pessimistic Mean", "Best", "Worst"]

/-- The rating-mode option values sent by the dashboard: the displayed labels
lowercased (elex.py line 221). -/
def ratingModeValues : List String := ratingModeLabels.map lowerStr

/-- The six canonical rating-mode identifiers of spec sections 3 and 6. -/
def canonicalModes : List String :=
  ["optimistic median", "pessimistic median", "optimistic mean",
   "pessimistic mean", "best", "worst"]

/-- One plotted coordinate of Visualization.update_figures (elex.py lines
243-248): the index (or raw value) of the axis metric, with an absent value
replaced by 0 (the Python expression x or 0). -/
def axisCoord (s : Summary) (ax : String) (scale : String) : ℚ :=
  if scale = "index" then ((lookupStr ax s.metrics).bind MRec.index).getD 0
  else ((lookupStr ax s.metrics).bind MRec.value).getD 0

/-- The per-environment plot data assembled by Visualization.update_figures
(elex.py lines 239-248). -/
structure EnvData where
  names : List String
  ratings : List (Option ℕ)
  xs : List ℚ
  ys : List ℚ
deriving DecidableEq

/-- The plot-data loop body of Visualization.update_figures for one
environment (elex.py lines 239-248). -/
def buildEnvData (st : VisState) (mode : String) (scale : String)
    (sums : List Summary) : EnvData :=
  { names := sums.map Summary.name
    ratings := sums.map (fun s => calculate_compound_rating s mode)
    xs := sums.map (fun s => axisCoord s st.xaxis scale)
    ys := sums.map (fun s => axisCoord s st.yaxis scale) }

/-- The summary Visualization.update_metric_fields reads the session weights
from (elex.py line 322): the first summary of the first environment of the
current task. -/
def anySummary (st : VisState) : Option Summary :=
  (lookupStr st.task st.summaries).bind (fun envs =>
    envs.head?.bind (fun ev => ev.2.head?))

/-- The weight pair returned by Visualization.update_metric_fields (elex.py
line 323). -/
def readMetricWeights (st : VisState) : Option (ℚ × ℚ) :=
  (anySummary st).bind (fun s =>
    (lookupStr st.xaxis s.metrics).bind (fun rx =>
      (lookupStr st.yaxis s.metrics).map (fun ry => (rx.weight, ry.weight))))

/-! ## State predicates -/

/-- Adjacent intervals of one metric share their endpoint: component 1 of
each interval equals component 0 of the next. -/
def adjacentB : BIntervals → Bool
  | p :: q :: r => (p.2 == q.1) && adjacentB (q :: r)
  | _ => true

/-- Every metric of the store has pairwise shared endpoints. -/
def storeAdjacent (bs : BStore) : Bool := bs.all (fun kv => adjacentB kv.2)

/-- Every metric of the store has exactly five intervals. -/
def storeLens (bs : BStore) : Bool := bs.all (fun kv => kv.2.length == 5)

/-- Every metric of the store has strictly descending cut points. -/
def storeDesc (bs : BStore) : Bool := bs.all (fun kv => strictDescB (cutsOf kv.2))

/-- One record is consistent with the boundary store: its rating is exactly
the classification of its index under the cut points stored for its metric,
absent when either is absent. -/
def recConsistentB (bs : BStore) (m : String) (r : MRec) : Bool :=
  r.rating == r.index.bind (fun i => (lookupStr m bs).map (fun iv => classify (cutsOf iv) i))

/-- A summary is consistent with the boundary store. -/
def sumConsistentB (bs : BStore) (s : Summary) : Bool :=
  s.metrics.all (fun kv => recConsistentB bs kv.1 kv.2)

/-- The whole session state is consistent: every rating in every summary is
the classification of its index under the current boundaries. -/
def stateConsistentB (st : VisState) : Bool :=
  st.summaries.all (fun te => te.2.all (fun ev => ev.2.all (sumConsistentB st.boundaries)))

/-- Two summaries agree on the weight of every metric they share. -/
def weightsAgreeB (s1 s2 : Summary) : Bool :=
  s1.metrics.all (fun kv =>
    ((lookupStr kv.1 s2.metrics).map (fun r2 => kv.2.weight == r2.weight)).getD true)

/-- All summaries of one task (across its environments) agree pairwise on
every shared metric weight. -/
def uniformTaskB (envs : List (String × List Summary)) : Bool :=
  let ss := (envs.map Prod.snd).flatten
  ss.all (fun s1 => ss.all (fun s2 => weightsAgreeB s1 s2))

/-- Weights are uniform within every task of the corpus. -/
def uniformWeightsB (S : TaskMap) : Bool := S.all (fun te => uniformTaskB te.2)

/-- The hypothesis that a slider payload carries exactly four strictly
ascending values, which the dashboard RangeSlider guarantees through its four
handles and its pushable setting (elex.py lines 154 and 162). -/
def ascFour (vals : List ℚ) : Prop :=
  (∃ v0 v1 v2 v3, vals = [v0, v1, v2, v3]) ∧ strictAscB vals = true

/-! ## Concrete instances -/

/-- A well-formed five-interval store entry with cut points 8, 6, 4, 2. -/
def bX : BIntervals := [(100, 8), (8, 6), (6, 4), (4, 2), (2, 0)]

/-- A strictly ascending slider payload that changes every cut point of bX. -/
def slidersX : List ℚ := [3, 5, 7, 9]

/-- The store state reached after the first elementary slider assignment
(elex.py line 287) of the update of bX by slidersX, before line 288 runs. -/
def stepOne : BIntervals := [(100, 8), (8, 6), (6, 4), (4, 2), (3, 0)]

/-- A record whose measurement is absent. -/
def recAbs : MRec := ⟨none, none, none, 1⟩

/-- A record with a present measurement, index and rating. -/
def recPow : MRec := ⟨some 50, some 2, some 0, 1⟩

/-- A summary whose x-axis metric has an absent measurement. -/
def sAbs : Summary := ⟨"M2", "E1", [("top1_val", recAbs), ("inference_power_draw", recPow)]⟩

/-- A session state holding the summary with the absent measurement. -/
def stC4 : VisState :=
  ⟨[("inference", [("E1", [sAbs])])],
   [("top1_val", bX), ("inference_power_draw", bX)],
   "inference", "top1_val", "inference_power_draw", "ResNet101"⟩

/-- A reference-model summary. -/
def sRef : Summary := ⟨"ResNet101", "E1", [("top1_val", ⟨some 75, some 1, some 2, 1⟩)]⟩

/-- A second summary with a distinct index value. -/
def sM : Summary := ⟨"M", "E1", [("top1_val", ⟨some 150, some 2, some 0, 1⟩)]⟩

/-- A non-degenerate session state: two summaries, two distinct index
values for the only metric. -/
def stW : VisState :=
  ⟨[("inference", [("E1", [sRef, sM])])], [("top1_val", bX)],
   "inference", "top1_val", "top1_val", "ResNet101"⟩

/-- The session state produced by the optimal-boundary branch on stW. -/
def stW2 : VisState :=
  match calcBoundsBranch stW with
  | Except.ok s => s
  | Except.error _ => stW

/-- A degenerate (empty) session state. -/
def stE : VisState :=
  ⟨[], [("top1_val", bX)], "inference", "top1_val", "inference_power_draw", "ResNet101"⟩

/-- An import payload with one valid entry and one non-monotonic entry. -/
def pW : List (String × List ℚ) := [("top1_val", [8, 6, 4, 2]), ("gflops", [4, 6, 5, 1])]

/-- The boundary store produced by calibration on stW. -/
def bCal : BStore :=
  match calculate_optimal_boundaries stW.summaries targetFracs with
  | Except.ok b => b
  | Except.error _ => []

/-! ## Arithmetic wrapper lemmas -/

theorem qmul_eq (a b : ℚ) : qmul a b = a * b := by
  rw [qmul, Rat.divInt_eq_div]
  push_cast
  conv_rhs => rw [← Rat.num_div_den a, ← Rat.num_div_den b]
  rw [div_mul_div_comm]

theorem qdiv_eq (a b : ℚ) : qdiv a b = a / b := by
  rw [qdiv, Rat.divInt_eq_div]
  push_cast
  by_cases hb : b = 0
  · subst hb
    simp
  · have h1 : ((a.den : ℚ)) ≠ 0 := Nat.cast_ne_zero.mpr a.den_nz
    have h3 : ((b.den : ℚ)) ≠ 0 := Nat.cast_ne_zero.mpr b.den_nz
    have h2 : ((b.num : ℚ)) ≠ 0 := by
      rw [Int.cast_ne_zero, Rat.num_ne_zero]
      exact hb
    conv_rhs => rw [← Rat.num_div_den a, ← Rat.num_div_den b]
    field_simp

theorem qadd_eq (a b : ℚ) : qadd a b = a + b := by
  rw [qadd, Rat.divInt_eq_div]
  push_cast
  have h1 : ((a.den : ℚ)) ≠ 0 := Nat.cast_ne_zero.mpr a.den_nz
  have h3 : ((b.den : ℚ)) ≠ 0 := Nat.cast_ne_zero.mpr b.den_nz
  conv_rhs => rw [← Rat.num_div_den a, ← Rat.num_div_den b]
  rw [div_add_div _ _ h1 h3]

theorem qsum_eq : ∀ l : List ℚ, qsum l = l.sum := by
  intro l
  induction l with
  | nil => rfl
  | cons x r ih =>
    show qadd x (qsum r) = (x :: r).sum
    rw [qadd_eq, ih, List.sum_cons]

theorem targetFracs_eq :
    targetFracs = [(8 : ℚ)/10, (6 : ℚ)/10, (4 : ℚ)/10, (2 : ℚ)/10] := by
  simp [targetFracs, Rat.divInt_eq_div]

/-! ## Association-list lemmas -/

theorem lookup_keyMap (g : String → α → β) (m : String) :
    ∀ l : List (String × α),
      lookupStr m (l.map (fun kv => (kv.1, g kv.1 kv.2))) = (lookupStr m l).map (g m) := by
  intro l
  induction l with
  | nil => rfl
  | cons kv r ih =>
    obtain ⟨k, v⟩ := kv
    by_cases hk : k = m
    · subst hk
      simp [lookupStr]
    · simp [lookupStr, hk, ih]

theorem lookup_mem {m : String} {v : α} :
    ∀ {l : List (String × α)}, lookupStr m l = some v → (m, v) ∈ l := by
  intro l
  induction l with
  | nil => intro h; simp [lookupStr] at h
  | cons kv r ih =>
    obtain ⟨k, w⟩ := kv
    intro h
    by_cases hk : k = m
    · subst hk
      simp [lookupStr] at h
      simp [h]
    · simp [lookupStr, hk] at h
      exact List.mem_cons_of_mem _ (ih h)

theorem storeSet_self {k : String} {v : α} :
    ∀ {l : List (String × α)}, lookupStr k l = some v → storeSet k v l = l := by
  intro l
  induction l with
  | nil => intro h; simp [lookupStr] at h
  | cons kv r ih =>
    obtain ⟨k1, v1⟩ := kv
    intro h
    by_cases hk : k1 = k
    · subst hk
      simp [lookupStr] at h
      simp [storeSet, h]
    · simp [lookupStr, hk] at h
      simp [storeSet, hk, ih h]

theorem head?_mem {x : α} : ∀ {l : List α}, l.head? = some x → x ∈ l := by
  intro l
  cases l with
  | nil => intro h; simp at h
  | cons a r => intro h; simp at h; simp [h]

/-! ## Slider-loop lemmas -/

theorem slideRun_flag_false :
    ∀ (vs : List ℚ) (b : BIntervals) (nec : Bool) (j : ℕ),
      (slideRun b nec j vs).2 = false → (slideRun b nec j vs).1 = b ∧ nec = false := by
  intro vs
  induction vs with
  | nil => intro b nec j h; exact ⟨rfl, h⟩
  | cons v rest ih =>
    intro b nec j h
    rw [slideRun] at h ⊢
    by_cases hc : (b.get? (4 - j)).map Prod.fst = some v
    · rw [if_pos hc] at h ⊢
      exact ih b nec (j + 1) h
    · rw [if_neg hc] at h ⊢
      exact absurd (ih _ _ _ h).2 (by simp)

theorem slideStore_flag_false :
    ∀ (axes : List (String × List ℚ)) (bs : BStore),
      (slideStore bs axes).2 = false → (slideStore bs axes).1 = bs := by
  intro axes
  induction axes with
  | nil => intro bs _; rfl
  | cons a rest ih =>
    obtain ⟨ax, vals⟩ := a
    intro bs h
    cases hl : lookupStr ax bs with
    | none =>
      simp only [slideStore, hl] at h ⊢
      exact ih bs h
    | some b =>
      simp only [slideStore, hl, Bool.or_eq_false_iff] at h ⊢
      have hb : (slideAxis b vals).1 = b :=
        (slideRun_flag_false vals b false 0 h.1).1
      have hset : storeSet ax (slideAxis b vals).1 bs = bs := by
        rw [hb]; exact storeSet_self hl
      rw [hset] at h ⊢
      exact ih bs h.2

theorem adjacentB_five {a0 c0 a1 c1 a2 c2 a3 c3 a4 c4 : ℚ}
    (h : adjacentB [(a0, c0), (a1, c1), (a2, c2), (a3, c3), (a4, c4)] = true) :
    c0 = a1 ∧ c1 = a2 ∧ c2 = a3 ∧ c3 = a4 := by
  simp [adjacentB] at h
  exact ⟨h.1, h.2.1, h.2.2.1, h.2.2.2⟩

theorem length_five {l : List α} (h : l.length = 5) :
    ∃ p0 p1 p2 p3 p4, l = [p0, p1, p2, p3, p4] := by
  match l, h with
  | [p0, p1, p2, p3, p4], _ => exact ⟨p0, p1, p2, p3, p4, rfl⟩

theorem slideStep0 (p0 p1 p2 : ℚ × ℚ) (x3 x4 y4 v : ℚ) (nec : Bool) (vs : List ℚ) :
    slideRun [p0, p1, p2, (x3, x4), (x4, y4)] nec 0 (v :: vs)
      = slideRun [p0, p1, p2, (x3, v), (v, y4)] (nec || decide (¬ x4 = v)) 1 vs := by
  rw [slideRun]
  by_cases h : x4 = v
  · subst h; simp [List.get?]
  · simp [List.get?, h, setFst, setSnd, List.set]

theorem slideStep1 (p4 : ℚ × ℚ) (z0 z1 z2 x3 y3 v : ℚ) (nec : Bool) (vs : List ℚ) :
    slideRun [(z0, z1), (z1, z2), (z2, x3), (x3, y3), p4] nec 1 (v :: vs)
      = slideRun [(z0, z1), (z1, z2), (z2, v), (v, y3), p4] (nec || decide (¬ x3 = v)) 2 vs := by
  rw [slideRun]
  by_cases h : x3 = v
  · subst h; simp [List.get?]
  · simp [List.get?, h, setFst, setSnd, List.set]

theorem slideStep2 (p3 p4 : ℚ × ℚ) (z0 z1 x2 y2 v : ℚ) (nec : Bool) (vs : List ℚ) :
    slideRun [(z0, z1), (z1, x2), (x2, y2), p3, p4] nec 2 (v :: vs)
      = slideRun [(z0, z1), (z1, v), (v, y2), p3, p4] (nec || decide (¬ x2 = v)) 3 vs := by
  rw [slideRun]
  by_cases h : x2 = v
  · subst h; simp [List.get?]
  · simp [List.get?, h, setFst, setSnd, List.set]

theorem slideStep3 (p2 p3 p4 : ℚ × ℚ) (x0 x1 y1 v : ℚ) (nec : Bool) (vs : List ℚ) :
    slideRun [(x0, x1), (x1, y1), p2, p3, p4] nec 3 (v :: vs)
      = slideRun [(x0, v), (v, y1), p2, p3, p4] (nec || decide (¬ x1 = v)) 4 vs := by
  rw [slideRun]
  by_cases h : x1 = v
  · subst h; simp [List.get?]
  · simp [List.get?, h, setFst, setSnd, List.set]

/-- Characterization of the slider loop on a well-formed (adjacent) interval
list: every targeted cut position ends up holding the corresponding slider
value, on both of its adjacent interval edges. -/
theorem slideAxis_char (a0 a1 a2 a3 a4 c4 v0 v1 v2 v3 : ℚ) :
    (slideAxis [(a0, a1), (a1, a2), (a2, a3), (a3, a4), (a4, c4)] [v0, v1, v2, v3]).1
      = [(a0, v3), (v3, v2), (v2, v1), (v1, v0), (v0, c4)] := by
  rw [slideAxis, slideStep0, slideStep1, slideStep2, slideStep3]
  rfl

/-! ## Reclassification lemmas -/

theorem rateRec_value (c : Option (List ℚ)) (rv : Option ℚ) (d : Bool) (r : MRec) :
    (rateRec c rv d r).value = r.value := rfl

theorem rateRec_weight (c : Option (List ℚ)) (rv : Option ℚ) (d : Bool) (r : MRec) :
    (rateRec c rv d r).weight = r.weight := rfl

theorem rateRec_twice (c c0 : Option (List ℚ)) (rv rv0 : Option ℚ) (d d0 : Bool) (r : MRec) :
    rateRec c rv d (rateRec c0 rv0 d0 r) = rateRec c rv d r := rfl

theorem rateSummary_name (bs : BStore) (rm : List (String × MRec)) (s : Summary) :
    (rateSummary bs rm s).name = s.name := rfl

theorem rateSummary_lookup (bs : BStore) (rm : List (String × MRec)) (s : Summary)
    (m : String) :
    lookupStr m (rateSummary bs rm s).metrics
      = (lookupStr m s.metrics).map (fun r =>
          rateRec ((lookupStr m bs).map cutsOf) ((lookupStr m rm).bind MRec.value)
            (higherBetter m) r) :=
  lookup_keyMap (fun k r =>
    rateRec ((lookupStr k bs).map cutsOf) ((lookupStr k rm).bind MRec.value)
      (higherBetter k) r) m s.metrics

theorem rateSummary_valueLookup (bs : BStore) (rm : List (String × MRec)) (s : Summary)
    (m : String) :
    (lookupStr m (rateSummary bs rm s).metrics).bind MRec.value
      = (lookupStr m s.metrics).bind MRec.value := by
  rw [rateSummary_lookup]
  cases lookupStr m s.metrics <;> rfl

theorem rateSummary_congr (bs : BStore) (rm1 rm2 : List (String × MRec)) (s : Summary)
    (h : ∀ m, (lookupStr m rm1).bind MRec.value = (lookupStr m rm2).bind MRec.value) :
    rateSummary bs rm1 s = rateSummary bs rm2 s := by
  unfold rateSummary
  congr 1
  apply List.map_congr_left
  intro kv _
  rw [h kv.1]

theorem rateSummary_twice (b1 b0 : BStore) (rm1 rm0 : List (String × MRec)) (s : Summary) :
    rateSummary b1 rm1 (rateSummary b0 rm0 s) = rateSummary b1 rm1 s := by
  unfold rateSummary
  simp only [List.map_map]
  rfl

theorem find?_name_map (f : Summary → Summary) (hf : ∀ s, (f s).name = s.name) (n : String) :
    ∀ l : List Summary,
      (l.map f).find? (fun s => s.name == n) = (l.find? (fun s => s.name == n)).map f := by
  intro l
  induction l with
  | nil => rfl
  | cons a r ih =>
    simp only [List.map_cons, List.find?]
    rw [hf a]
    cases h : (a.name == n) <;> simp [h, ih]

theorem rateEnv_twice (b1 b0 : BStore) (ref : String) (ss : List Summary) :
    rateEnv b1 ref (rateEnv b0 ref ss) = rateEnv b1 ref ss := by
  unfold rateEnv
  rw [find?_name_map (rateSummary b0 _) (fun s => rfl) ref ss]
  cases hf : ss.find? (fun s => s.name == ref) with
  | none =>
    simp only [Option.map_none, Option.getD_none, List.map_map]
    apply List.map_congr_left
    intro s _
    exact rateSummary_twice b1 b0 [] [] s
  | some s0 =>
    simp only [Option.map_some, Option.getD_some, List.map_map]
    apply List.map_congr_left
    intro s _
    have h2 : rateSummary b1 (rateSummary b0 s0.metrics s0).metrics (rateSummary b0 s0.metrics s)
        = rateSummary b1 s0.metrics (rateSummary b0 s0.metrics s) :=
      rateSummary_congr b1 _ _ _ (fun m => rateSummary_valueLookup b0 s0.metrics s0 m)
    calc (rateSummary b1 (rateSummary b0 s0.metrics s0).metrics ∘ rateSummary b0 s0.metrics) s
        = rateSummary b1 s0.metrics (rateSummary b0 s0.metrics s) := h2
      _ = rateSummary b1 s0.metrics s := rateSummary_twice b1 b0 _ _ s

theorem rate_results_twice (S : TaskMap) (ref : String) (b0 b1 : BStore) :
    rate_results (rate_results S ref b0) ref b1 = rate_results S ref b1 := by
  unfold rate_results
  simp only [List.map_map]
  apply List.map_congr_left
  intro te _
  simp only [Function.comp_apply, List.map_map]
  congr 1
  apply List.map_congr_left
  intro ev _
  simp only [Function.comp_apply]
  rw [rateEnv_twice]

/-! ## Consistency lemmas -/

theorem recConsistent_rateRec (bs : BStore) (m : String) (rv : Option ℚ) (d : Bool)
    (r : MRec) :
    recConsistentB bs m (rateRec ((lookupStr m bs).map cutsOf) rv d r) = true := by
  unfold recConsistentB rateRec
  cases hl : lookupStr m bs with
  | none =>
    cases r.value with
    | none => simp
    | some v =>
      cases rv with
      | none => simp
      | some q => by_cases hq : q = 0 <;> simp [hq]
  | some iv =>
    cases r.value with
    | none => simp
    | some v =>
      cases rv with
      | none => simp
      | some q => by_cases hq : q = 0 <;> simp [hq]

theorem sumConsistent_rateSummary (bs : BStore) (rm : List (String × MRec)) (s : Summary) :
    sumConsistentB bs (rateSummary bs rm s) = true := by
  unfold sumConsistentB rateSummary
  simp only [List.all_map, List.all_eq_true]
  intro kv _
  exact recConsistent_rateRec bs kv.1 _ _ kv.2

theorem rate_results_consistent (S : TaskMap) (ref : String) (bs : BStore) :
    (rate_results S ref bs).all (fun te => te.2.all (fun ev =>
      ev.2.all (sumConsistentB bs))) = true := by
  unfold rate_results rateEnv
  simp only [List.all_map, List.all_eq_true, Function.comp_apply]
  intro te _ ev _ s _
  exact sumConsistent_rateSummary bs _ s

/-! ## Weight-update lemmas -/

theorem applyW_name (a : WArg) (s : Summary) : (applyW a s).name = s.name := rfl

theorem applyW_environment (a : WArg) (s : Summary) :
    (applyW a s).environment = s.environment := rfl

theorem applyW_lookup (a : WArg) (s : Summary) (m : String) :
    lookupStr m (applyW a s).metrics
      = (lookupStr m s.metrics).map (fun r => { r with weight := wAfter a m r.weight }) := by
  unfold applyW
  exact lookup_keyMap
    (fun (k : String) (r : MRec) => ({ r with weight := wAfter a k r.weight } : MRec))
    m s.metrics

theorem mrec_weight_update_self (r : MRec) : { r with weight := r.weight } = r := rfl

/-! ## Uniform-weight lemmas -/

theorem weightsAgree_transfer (s1 s2 t1 t2 : Summary) (g1 g2 : String → MRec → MRec)
    (H : String → ℚ → ℚ)
    (h1 : t1.metrics = s1.metrics.map (fun kv => (kv.1, g1 kv.1 kv.2)))
    (h2 : ∀ m, lookupStr m t2.metrics = (lookupStr m s2.metrics).map (g2 m))
    (hw1 : ∀ m r, (g1 m r).weight = H m r.weight)
    (hw2 : ∀ m r, (g2 m r).weight = H m r.weight)
    (h : weightsAgreeB s1 s2 = true) : weightsAgreeB t1 t2 = true := by
  unfold weightsAgreeB at h ⊢
  rw [h1, List.all_eq_true]
  rw [List.all_eq_true] at h
  intro x hx
  obtain ⟨kv, hkv, rfl⟩ := List.mem_map.1 hx
  have hh := h kv hkv
  show ((lookupStr kv.1 t2.metrics).map
    (fun r2 => (g1 kv.1 kv.2).weight == r2.weight)).getD true = true
  rw [h2 kv.1]
  cases hl : lookupStr kv.1 s2.metrics with
  | none => simp
  | some r2 =>
    rw [hl] at hh
    simp only [Option.map_some', Option.getD_some, beq_iff_eq] at hh ⊢
    rw [hw1, hw2, hh]

theorem uniformTask_map (envs : List (String × List Summary))
    (F : String × List Summary → Summary → Summary)
    (G : String × List Summary → String → MRec → MRec) (H : String → ℚ → ℚ)
    (hmet : ∀ ev s, (F ev s).metrics = s.metrics.map (fun kv => (kv.1, G ev kv.1 kv.2)))
    (hw : ∀ ev m r, (G ev m r).weight = H m r.weight)
    (h : uniformTaskB envs = true) :
    uniformTaskB (envs.map (fun ev => (ev.1, ev.2.map (F ev)))) = true := by
  simp only [uniformTaskB, List.all_eq_true] at h ⊢
  intro t1 ht1 t2 ht2
  have hdec : ∀ t, t ∈ (((envs.map (fun ev => (ev.1, ev.2.map (F ev)))).map Prod.snd).flatten) →
      ∃ ev, ev ∈ envs ∧ ∃ s, s ∈ ev.2 ∧ t = F ev s := by
    intro t ht
    obtain ⟨l, hl, htl⟩ := List.mem_flatten.1 ht
    obtain ⟨x, hx, rfl⟩ := List.mem_map.1 hl
    obtain ⟨ev, hev, rfl⟩ := List.mem_map.1 hx
    obtain ⟨s, hs, rfl⟩ := List.mem_map.1 htl
    exact ⟨ev, hev, s, hs, rfl⟩
  obtain ⟨ev1, hev1, s1, hs1, rfl⟩ := hdec t1 ht1
  obtain ⟨ev2, hev2, s2, hs2, rfl⟩ := hdec t2 ht2
  have hm1 : s1 ∈ ((envs.map Prod.snd).flatten) :=
    List.mem_flatten.2 ⟨ev1.2, List.mem_map_of_mem Prod.snd hev1, hs1⟩
  have hm2 : s2 ∈ ((envs.map Prod.snd).flatten) :=
    List.mem_flatten.2 ⟨ev2.2, List.mem_map_of_mem Prod.snd hev2, hs2⟩
  exact weightsAgree_transfer s1 s2 (F ev1 s1) (F ev2 s2) (G ev1) (G ev2) H
    (hmet ev1 s1)
    (fun m => by rw [hmet ev2 s2]; exact lookup_keyMap (G ev2) m s2.metrics)
    (hw ev1) (hw ev2) (h s1 hm1 s2 hm2)

theorem uniformWeights_update (S : TaskMap) (a : WArg)
    (h : uniformWeightsB S = true) : uniformWeightsB (update_weights S a) = true := by
  unfold uniformWeightsB at h ⊢
  unfold update_weights
  rw [List.all_eq_true] at h ⊢
  intro x hx
  obtain ⟨te, hte, rfl⟩ := List.mem_map.1 hx
  show uniformTaskB (te.2.map (fun ev => (ev.1, ev.2.map (applyW a)))) = true
  exact uniformTask_map te.2 (fun ev => applyW a)
    (fun ev k r => { r with weight := wAfter a k r.weight }) (wAfter a)
    (fun ev s => rfl) (fun ev m r => rfl) (h te hte)

set_option maxHeartbeats 1000000 in
theorem uniformWeights_rate (S : TaskMap) (ref : String) (bs : BStore)
    (h : uniformWeightsB S = true) : uniformWeightsB (rate_results S ref bs) = true := by
  unfold uniformWeightsB at h ⊢
  unfold rate_results
  rw [List.all_eq_true] at h ⊢
  intro x hx
  obtain ⟨te, hte, rfl⟩ := List.mem_map.1 hx
  show uniformTaskB (te.2.map (fun ev => (ev.1, rateEnv bs ref ev.2))) = true
  have hshape : (te.2.map (fun ev => (ev.1, rateEnv bs ref ev.2)))
      = te.2.map (fun ev => (ev.1, ev.2.map (rateSummary bs
          (((ev.2.find? (fun s => s.name == ref)).map Summary.metrics).getD [])))) := by
    apply List.map_congr_left
    intro ev _
    rfl
  rw [hshape]
  apply uniformTask_map te.2
    (fun ev => rateSummary bs (((ev.2.find? (fun s => s.name == ref)).map Summary.metrics).getD []))
    (fun ev k r => rateRec ((lookupStr k bs).map cutsOf)
      ((lookupStr k (((ev.2.find? (fun s => s.name == ref)).map Summary.metrics).getD [])).bind
        MRec.value)
      (higherBetter k) r)
    (fun m q => q)
  · intro ev s
    rfl
  · intro ev m r
    rfl
  · exact h te hte

/-! ## Import and calibration store lemmas -/

theorem length_four {l : List α} (h : l.length = 4) :
    ∃ p0 p1 p2 p3, l = [p0, p1, p2, p3] := by
  match l, h with
  | [p0, p1, p2, p3], _ => exact ⟨p0, p1, p2, p3, rfl⟩

theorem cutsOf_intervalsFromCuts {cs : List ℚ} (h : cs.length = 4) :
    cutsOf (intervalsFromCuts cs) = cs := by
  obtain ⟨c0, c1, c2, c3, rfl⟩ := length_four h
  rfl

theorem adjacent_intervalsFromCuts (cs : List ℚ) :
    adjacentB (intervalsFromCuts cs) = true := by
  unfold intervalsFromCuts
  split
  · simp [adjacentB]
  · rfl

theorem length_intervalsFromCuts {cs : List ℚ} (h : cs.length = 4) :
    (intervalsFromCuts cs).length = 5 := by
  obtain ⟨c0, c1, c2, c3, rfl⟩ := length_four h
  rfl

theorem validCuts_parts {cs : List ℚ} (h : validCuts cs = true) :
    cs.length = 4 ∧ strictDescB cs = true := by
  unfold validCuts at h
  simp only [Bool.and_eq_true, beq_iff_eq] at h
  exact h

theorem load_boundaries_desc :
    ∀ (p : List (String × List ℚ)) (kv : String × BIntervals),
      kv ∈ (load_boundaries p).1 → strictDescB (cutsOf kv.2) = true := by
  intro p
  induction p with
  | nil => intro kv h; simp [load_boundaries] at h
  | cons e rest ih =>
    obtain ⟨k, cs⟩ := e
    intro kv h
    by_cases hv : validCuts cs = true
    · simp only [load_boundaries, hv, if_pos] at h
      rcases List.mem_cons.1 h with h1 | h2
      · subst h1
        rw [cutsOf_intervalsFromCuts (validCuts_parts hv).1]
        exact (validCuts_parts hv).2
      · exact ih kv h2
    · simp only [load_boundaries, hv, if_neg, Bool.false_eq_true, not_false_iff] at h
      exact ih kv h

theorem load_boundaries_adjacent :
    ∀ (p : List (String × List ℚ)) (kv : String × BIntervals),
      kv ∈ (load_boundaries p).1 → adjacentB kv.2 = true := by
  intro p
  induction p with
  | nil => intro kv h; simp [load_boundaries] at h
  | cons e rest ih =>
    obtain ⟨k, cs⟩ := e
    intro kv h
    by_cases hv : validCuts cs = true
    · simp only [load_boundaries, hv, if_pos] at h
      rcases List.mem_cons.1 h with h1 | h2
      · subst h1
        exact adjacent_intervalsFromCuts cs
      · exact ih kv h2
    · simp only [load_boundaries, hv, if_neg, Bool.false_eq_true, not_false_iff] at h
      exact ih kv h

theorem load_boundaries_applied :
    ∀ (p : List (String × List ℚ)), (p.map Prod.fst).Nodup →
      ∀ (m : String) (cs : List ℚ), (m, cs) ∈ p → validCuts cs = true →
        lookupStr m (load_boundaries p).1 = some (intervalsFromCuts cs) := by
  intro p
  induction p with
  | nil => intro _ m cs h; simp at h
  | cons e rest ih =>
    obtain ⟨k, ds⟩ := e
    intro hnd m cs hmem hv
    simp only [List.map_cons, List.nodup_cons] at hnd
    rcases List.mem_cons.1 hmem with h1 | h2
    · rw [Prod.mk.injEq] at h1
      obtain ⟨rfl, rfl⟩ := h1
      simp only [load_boundaries, hv, if_pos]
      simp [lookupStr]
    · have hmk : m ∈ rest.map Prod.fst := List.mem_map_of_mem Prod.fst h2
      have hne : ¬ (k = m) := fun he => hnd.1 (he ▸ hmk)
      by_cases hvk : validCuts ds = true
      · simp only [load_boundaries, hvk, if_pos]
        rw [lookupStr, if_neg hne]
        exact ih hnd.2 m cs h2 hv
      · simp only [load_boundaries, hvk, if_neg, Bool.false_eq_true, not_false_iff]
        exact ih hnd.2 m cs h2 hv

theorem load_boundaries_rejected :
    ∀ (p : List (String × List ℚ)) (m : String) (cs : List ℚ),
      (m, cs) ∈ p → validCuts cs = false → m ∈ (load_boundaries p).2 := by
  intro p
  induction p with
  | nil => intro m cs h; simp at h
  | cons e rest ih =>
    obtain ⟨k, ds⟩ := e
    intro m cs hmem hv
    rcases List.mem_cons.1 hmem with h1 | h2
    · rw [Prod.mk.injEq] at h1
      obtain ⟨rfl, rfl⟩ := h1
      simp only [load_boundaries, hv, Bool.false_eq_true, if_neg, not_false_iff]
      exact List.mem_cons_self m _
    · by_cases hvk : validCuts ds = true
      · simp only [load_boundaries, hvk, if_pos]
        exact ih m cs h2 hv
      · simp only [load_boundaries, hvk, Bool.false_eq_true, if_neg, not_false_iff]
        exact List.mem_cons_of_mem k (ih m cs h2 hv)

theorem calibration_adjacent (S : TaskMap) (fracs : List ℚ) (bs : BStore)
    (h : calculate_optimal_boundaries S fracs = Except.ok bs) :
    ∀ kv, kv ∈ bs → adjacentB kv.2 = true := by
  unfold calculate_optimal_boundaries at h
  by_cases hd : degenerateCorpus S = true
  · rw [if_pos hd] at h
    cases h
  · rw [if_neg hd] at h
    rw [Except.ok.injEq] at h
    subst h
    intro kv hkv
    obtain ⟨m, _, rfl⟩ := List.mem_map.1 hkv
    exact adjacent_intervalsFromCuts _

/-! ## Slider well-formedness lemmas -/

theorem strictAscB_four {v0 v1 v2 v3 : ℚ} (h : strictAscB [v0, v1, v2, v3] = true) :
    v0 < v1 ∧ v1 < v2 ∧ v2 < v3 := by
  simp [strictAscB] at h
  exact ⟨h.1, h.2.1, h.2.2⟩

theorem slideAxis_wf (b : BIntervals) (v0 v1 v2 v3 : ℚ)
    (hlen : b.length = 5) (hadj : adjacentB b = true) :
    (slideAxis b [v0, v1, v2, v3]).1.length = 5
      ∧ adjacentB (slideAxis b [v0, v1, v2, v3]).1 = true := by
  obtain ⟨p0, p1, p2, p3, p4, rfl⟩ := length_five hlen
  obtain ⟨a0, c0⟩ := p0
  obtain ⟨a1, c1⟩ := p1
  obtain ⟨a2, c2⟩ := p2
  obtain ⟨a3, c3⟩ := p3
  obtain ⟨a4, c4⟩ := p4
  obtain ⟨rfl, rfl, rfl, rfl⟩ := adjacentB_five hadj
  rw [slideAxis_char]
  exact ⟨rfl, by simp [adjacentB]⟩

theorem slideAxis_desc (b : BIntervals) (v0 v1 v2 v3 : ℚ)
    (hlen : b.length = 5) (hadj : adjacentB b = true)
    (hasc : strictAscB [v0, v1, v2, v3] = true) :
    strictDescB (cutsOf (slideAxis b [v0, v1, v2, v3]).1) = true := by
  obtain ⟨p0, p1, p2, p3, p4, rfl⟩ := length_five hlen
  obtain ⟨a0, c0⟩ := p0
  obtain ⟨a1, c1⟩ := p1
  obtain ⟨a2, c2⟩ := p2
  obtain ⟨a3, c3⟩ := p3
  obtain ⟨a4, c4⟩ := p4
  obtain ⟨rfl, rfl, rfl, rfl⟩ := adjacentB_five hadj
  rw [slideAxis_char]
  obtain ⟨h1, h2, h3⟩ := strictAscB_four hasc
  simp [cutsOf, strictDescB, h1, h2, h3]

theorem storeSet_all (P : String × α → Bool) (k : String) (v : α) :
    ∀ l : List (String × α), l.all P = true → P (k, v) = true →
      (storeSet k v l).all P = true := by
  intro l
  induction l with
  | nil => intro _ _; rfl
  | cons e rest ih =>
    obtain ⟨k1, v1⟩ := e
    intro hall hp
    simp only [List.all_cons, Bool.and_eq_true] at hall
    by_cases hk : k1 = k
    · simp only [storeSet, hk, if_pos, List.all_cons, Bool.and_eq_true]
      exact ⟨hp, hall.2⟩
    · simp only [storeSet, hk, if_neg, not_false_iff, List.all_cons, Bool.and_eq_true]
      exact ⟨hall.1, ih hall.2 hp⟩

theorem slideStore_wf :
    ∀ (axes : List (String × List ℚ)) (bs : BStore),
      storeLens bs = true → storeAdjacent bs = true → storeDesc bs = true →
      (∀ av ∈ axes, ascFour av.2) →
      storeLens (slideStore bs axes).1 = true
        ∧ storeAdjacent (slideStore bs axes).1 = true
        ∧ storeDesc (slideStore bs axes).1 = true := by
  intro axes
  induction axes with
  | nil => intro bs h1 h2 h3 _; exact ⟨h1, h2, h3⟩
  | cons av rest ih =>
    obtain ⟨ax, vals⟩ := av
    intro bs h1 h2 h3 hax
    have hhead : ascFour vals := hax (ax, vals) (List.mem_cons_self _ _)
    obtain ⟨⟨v0, v1, v2, v3, rfl⟩, hasc⟩ := hhead
    cases hl : lookupStr ax bs with
    | none =>
      simp only [slideStore, hl]
      exact ih bs h1 h2 h3 (fun av hav => hax av (List.mem_cons_of_mem _ hav))
    | some b =>
      simp only [slideStore, hl]
      have hmem : (ax, b) ∈ bs := lookup_mem hl
      have hblen : b.length = 5 := by
        have := (List.all_eq_true.1 h1) (ax, b) hmem
        simpa using this
      have hbadj : adjacentB b = true := (List.all_eq_true.1 h2) (ax, b) hmem
      have hwf := slideAxis_wf b v0 v1 v2 v3 hblen hbadj
      have hdesc := slideAxis_desc b v0 v1 v2 v3 hblen hbadj hasc
      have hs1 : storeLens (storeSet ax (slideAxis b [v0, v1, v2, v3]).1 bs) = true :=
        storeSet_all _ ax _ bs h1 (by simpa using hwf.1)
      have hs2 : storeAdjacent (storeSet ax (slideAxis b [v0, v1, v2, v3]).1 bs) = true :=
        storeSet_all _ ax _ bs h2 hwf.2
      have hs3 : storeDesc (storeSet ax (slideAxis b [v0, v1, v2, v3]).1 bs) = true :=
        storeSet_all _ ax _ bs h3 hdesc
      exact ih _ hs1 hs2 hs3 (fun av hav => hax av (List.mem_cons_of_mem _ hav))

theorem slideStore_adj :
    ∀ (axes : List (String × List ℚ)) (bs : BStore),
      storeLens bs = true → storeAdjacent bs = true →
      (∀ av ∈ axes, ∃ v0 v1 v2 v3, av.2 = [v0, v1, v2, v3]) →
      storeLens (slideStore bs axes).1 = true
        ∧ storeAdjacent (slideStore bs axes).1 = true := by
  intro axes
  induction axes with
  | nil => intro bs h1 h2 _; exact ⟨h1, h2⟩
  | cons av rest ih =>
    obtain ⟨ax, vals⟩ := av
    intro bs h1 h2 hax
    obtain ⟨v0, v1, v2, v3, rfl⟩ := hax (ax, vals) (List.mem_cons_self _ _)
    cases hl : lookupStr ax bs with
    | none =>
      simp only [slideStore, hl]
      exact ih bs h1 h2 (fun av hav => hax av (List.mem_cons_of_mem _ hav))
    | some b =>
      simp only [slideStore, hl]
      have hmem : (ax, b) ∈ bs := lookup_mem hl
      have hblen : b.length = 5 := by
        have := (List.all_eq_true.1 h1) (ax, b) hmem
        simpa using this
      have hbadj : adjacentB b = true := (List.all_eq_true.1 h2) (ax, b) hmem
      have hwf := slideAxis_wf b v0 v1 v2 v3 hblen hbadj
      have hs1 : storeLens (storeSet ax (slideAxis b [v0, v1, v2, v3]).1 bs) = true :=
        storeSet_all _ ax _ bs h1 (by simpa using hwf.1)
      have hs2 : storeAdjacent (storeSet ax (slideAxis b [v0, v1, v2, v3]).1 bs) = true :=
        storeSet_all _ ax _ bs h2 hwf.2
      exact ih _ hs1 hs2 (fun av hav => hax av (List.mem_cons_of_mem _ hav))

/-! ## Absence and state lemmas -/

theorem rateRec_absent (c : Option (List ℚ)) (rv : Option ℚ) (d : Bool) (r : MRec)
    (h : r.value = none) :
    (rateRec c rv d r).index = none ∧ (rateRec c rv d r).rating = none := by
  cases rv <;> simp [rateRec, h]

theorem compound_ignores_absent (s : Summary) (m : String) (r : MRec)
    (h : r.rating = none) (mode : String) :
    calculate_compound_rating ⟨s.name, s.environment, (m, r) :: s.metrics⟩ mode
      = calculate_compound_rating s mode := by
  unfold calculate_compound_rating ratingWeightPairs
  simp [List.filterMap_cons, h]

theorem stateConsistent_rated (S : TaskMap) (ref : String) (bs : BStore)
    (t x y rn : String) :
    stateConsistentB ⟨rate_results S ref bs, bs, t, x, y, rn⟩ = true := by
  unfold stateConsistentB
  exact rate_results_consistent S ref bs

theorem update_boundaries_consistent (st : VisState) (xs ys : List ℚ)
    (h : stateConsistentB st = true) :
    stateConsistentB (update_boundaries st xs ys) = true := by
  rw [update_boundaries]
  by_cases hfl : (slideStore st.boundaries [(st.xaxis, xs), (st.yaxis, ys)]).2 = true
  · simp only [hfl, if_pos]
    exact stateConsistent_rated st.summaries st.referenceName _ st.task st.xaxis st.yaxis
      st.referenceName
  · simp only [hfl, if_neg, Bool.not_eq_true, not_false_iff]
    have hb := slideStore_flag_false [(st.xaxis, xs), (st.yaxis, ys)] st.boundaries
      (Bool.not_eq_true _ ▸ hfl)
    rw [hb]
    exact h

theorem anySummary_mem (st : VisState) (s0 : Summary)
    (envs : List (String × List Summary))
    (h1 : lookupStr st.task st.summaries = some envs) (h2 : anySummary st = some s0) :
    s0 ∈ ((envs.map Prod.snd).flatten) := by
  unfold anySummary at h2
  rw [h1] at h2
  simp only [Option.some_bind] at h2
  cases he : envs.head? with
  | none => rw [he] at h2; cases h2
  | some ev =>
    rw [he] at h2
    simp only [Option.some_bind] at h2
    have hev : ev ∈ envs := head?_mem he
    have hs0 : s0 ∈ ev.2 := head?_mem h2
    exact List.mem_flatten.2 ⟨ev.2, List.mem_map_of_mem Prod.snd hev, hs0⟩

/-! ## Claims -/

/-- C1, counterexample: the claim states that every Boundaries update
replaces the full object atomically and never performs an in-place
per-cut-point edit that leaves the store inconsistent mid-update.  In the
code (elex.py lines 286-288) the slider update is a loop of elementary
per-cut-point assignments: on the concrete store bX and slider values
slidersX, the state reached after the very first assignment differs from
both the old store and the fully updated store, and it violates the
shared-endpoint pairing of adjacent intervals, so the update is not an
atomic whole-object replacement. -/
theorem C1_counterexample :
    (¬ ∀ s ∈ slideSteps bX 0 slidersX, s = bX ∨ s = (slideAxis bX slidersX).1)
    ∧ stepOne ∈ slideSteps bX 0 slidersX ∧ adjacentB stepOne = false := by decide

/-- C1, amended: slider-driven Boundaries updates edit the store in place
one cut point at a time, so intermediate states mixing old and new cut
points exist mid-update; however, if no cut point actually changed the
update leaves the store exactly as it was, and whenever any cut point
changed a full reclassification pass over the whole corpus runs before any
figure output is produced, so every state the output is built from has all
ratings consistent with its boundaries. -/
theorem C1_amended :
    (∀ (bs : BStore) (axes : List (String × List ℚ)),
        (slideStore bs axes).2 = false → (slideStore bs axes).1 = bs)
    ∧ (∀ (st : VisState) (xs ys : List ℚ), stateConsistentB st = true →
        stateConsistentB (update_boundaries st xs ys) = true) :=
  ⟨fun bs axes h => slideStore_flag_false axes bs h,
   fun st xs ys h => update_boundaries_consistent st xs ys h⟩

/-- C1, witness: the amended theorem applied at concrete inputs. -/
theorem C1_witness :
    (slideStore [("top1_val", bX)] [("top1_val", [2, 4, 6, 8])]).1 = [("top1_val", bX)]
    ∧ stateConsistentB (update_boundaries stW2 slidersX slidersX) = true :=
  ⟨C1_amended.1 _ _ (by decide), C1_amended.2 stW2 slidersX slidersX (by decide)⟩

/-- C2, counterexample: the claim states that every Boundaries store the
system holds has strictly monotonic cut points for every metric.  The
optimal-boundary branch is also a live source of stores: on the concrete
non-degenerate state stW it installs bCal as the session boundaries
(calcBranchState stW = stW2 with stW2.boundaries = bCal), and because the
calibrator takes the observed value at each quantile rank without
interpolation, the two-value corpus ties two ranks and bCal's only entry
carries the cut points 2, 2, 1, 1, which are not strictly descending. -/
theorem C2_counterexample :
    calcBranchState stW = stW2
    ∧ stW2.boundaries = bCal
    ∧ ("top1_val", intervalsFromCuts [2, 2, 1, 1]) ∈ bCal
    ∧ strictDescB (cutsOf (intervalsFromCuts [2, 2, 1, 1])) = false := by decide

/-- C2, amended: after any slider update (the RangeSlider supplies four
strictly ascending handle values) every store entry keeps strictly
descending cut points, and the boundaries import validates monotonicity per
metric, applying every valid entry and rejecting (reporting, not
reordering) every malformed one while every entry of the imported store is
strictly monotonic; a calibration-produced store, however, may carry equal
adjacent cut points when empirical quantile ranks tie under the
no-interpolation rule, so strict monotonicity is not guaranteed on that
path. -/
theorem C2_monotonic_boundaries :
    (∀ (bs : BStore) (axes : List (String × List ℚ)),
        storeLens bs = true → storeAdjacent bs = true → storeDesc bs = true →
        (∀ av ∈ axes, ascFour av.2) →
        storeDesc (slideStore bs axes).1 = true)
    ∧ (∀ (p : List (String × List ℚ)) (kv : String × BIntervals),
        kv ∈ (load_boundaries p).1 → strictDescB (cutsOf kv.2) = true)
    ∧ (∀ (p : List (String × List ℚ)), (p.map Prod.fst).Nodup →
        ∀ (m : String) (cs : List ℚ), (m, cs) ∈ p → validCuts cs = true →
          lookupStr m (load_boundaries p).1 = some (intervalsFromCuts cs))
    ∧ (∀ (p : List (String × List ℚ)) (m : String) (cs : List ℚ),
        (m, cs) ∈ p → validCuts cs = false → m ∈ (load_boundaries p).2) :=
  ⟨fun bs axes h1 h2 h3 hax => (slideStore_wf axes bs h1 h2 h3 hax).2.2,
   load_boundaries_desc, load_boundaries_applied, load_boundaries_rejected⟩

/-- C2, witness: the theorem applied at concrete inputs: a slider update of
the store holding bX, and the import payload pW whose first entry is valid
and whose second entry is not monotonic. -/
theorem C2_witness :
    storeDesc (slideStore [("top1_val", bX)] [("top1_val", slidersX)]).1 = true
    ∧ strictDescB (cutsOf ("top1_val", intervalsFromCuts [8, 6, 4, 2]).2) = true
    ∧ lookupStr "top1_val" (load_boundaries pW).1 = some (intervalsFromCuts [8, 6, 4, 2])
    ∧ "gflops" ∈ (load_boundaries pW).2 :=
  ⟨C2_monotonic_boundaries.1 _ _ (by decide) (by decide) (by decide)
      (by
        intro av hav
        rcases List.mem_singleton.1 hav with rfl
        exact ⟨⟨3, 5, 7, 9, rfl⟩, by decide⟩),
   C2_monotonic_boundaries.2.1 pW _ (by decide),
   C2_monotonic_boundaries.2.2.1 pW (by decide) "top1_val" [8, 6, 4, 2] (by decide) (by decide),
   C2_monotonic_boundaries.2.2.2 pW "gflops" [4, 6, 5, 1] (by decide) (by decide)⟩

/-- C3: classification is a pure function of the raw values and the
boundaries: re-rating an already-rated corpus with new boundaries gives
exactly the same result as rating the raw corpus from scratch with those
boundaries; no incremental state influences the outcome. -/
theorem C3_pure_reclassification (S : TaskMap) (ref : String) (b0 b1 : BStore) :
    rate_results (rate_results S ref b0) ref b1 = rate_results S ref b1 :=
  rate_results_twice S ref b0 b1

/-- C4, counterexample: the claim states that an absent Measurement is never
coerced to a sentinel numeric value such as 0.  In the summary the index
stays absent, but the plot-data builder of update_figures (elex.py lines
244-248, the expression x or 0) emits the sentinel coordinate 0 for the
summary whose x-axis metric has an absent measurement. -/
theorem C4_counterexample :
    ((lookupStr stC4.xaxis sAbs.metrics).bind MRec.index = none)
    ∧ (buildEnvData stC4 "best" "index" [sAbs]).xs = [0] := by decide

/-- C4, amended: an absent Measurement propagates as an absent Index and an
absent rating through reclassification, and a metric with an absent rating
is excluded from compound-rating aggregation entirely (numerator and
denominator alike); however, when scatter coordinates are built for the
figure, an absent index or value is replaced by the sentinel 0. -/
theorem C4_amended :
    (∀ (c : Option (List ℚ)) (rv : Option ℚ) (d : Bool) (r : MRec), r.value = none →
        (rateRec c rv d r).index = none ∧ (rateRec c rv d r).rating = none)
    ∧ (∀ (s : Summary) (m : String) (r : MRec) (mode : String), r.rating = none →
        calculate_compound_rating ⟨s.name, s.environment, (m, r) :: s.metrics⟩ mode
          = calculate_compound_rating s mode) :=
  ⟨fun c rv d r h => rateRec_absent c rv d r h,
   fun s m r mode h => compound_ignores_absent s m r h mode⟩

/-- C4, witness: the amended theorem applied at concrete inputs. -/
theorem C4_witness :
    ((rateRec (some [8, 6, 4, 2]) (some 100) true recAbs).index = none
      ∧ (rateRec (some [8, 6, 4, 2]) (some 100) true recAbs).rating = none)
    ∧ calculate_compound_rating ⟨sAbs.name, sAbs.environment,
        ("gflops", recAbs) :: sAbs.metrics⟩ "best" = calculate_compound_rating sAbs "best" :=
  ⟨C4_amended.1 (some [8, 6, 4, 2]) (some 100) true recAbs (by decide),
   C4_amended.2 sAbs "gflops" recAbs "best" (by decide)⟩

/-- C5: on a degenerate corpus (empty, or some metric with fewer than two
distinct index values) the calibrator signals InsufficientData, the
optimal-boundary branch propagates the error, and the session state (in
particular the prior Boundaries) is left untouched: the calibration result
is never assigned over it. -/
theorem C5_insufficient_data (st : VisState)
    (h : degenerateCorpus st.summaries = true) :
    calcBoundsBranch st = Except.error "InsufficientData" ∧ calcBranchState st = st := by
  have hcal : calculate_optimal_boundaries st.summaries targetFracs
      = Except.error "InsufficientData" := by
    unfold calculate_optimal_boundaries
    rw [if_pos h]
  have hbr : calcBoundsBranch st = Except.error "InsufficientData" := by
    unfold calcBoundsBranch
    rw [hcal]
  refine ⟨hbr, ?_⟩
  unfold calcBranchState
  rw [hbr]

/-- C5, witness: the theorem applied to the empty session state. -/
theorem C5_witness :
    calcBoundsBranch stE = Except.error "InsufficientData" ∧ calcBranchState stE = stE :=
  C5_insufficient_data stE (by decide)

/-- C6, counterexample: the claim states that no mode string other than the
six canonical labels, such as a bare mean, is ever passed to the
aggregator.  The fallback of update_figures and display_model (elex.py
lines 236 and 303) resolves a missing mode to the bare string mean, which
is not one of the six labels and which the modelled aggregator rejects. -/
theorem C6_counterexample :
    resolveRatingMode none = "mean"
    ∧ canonicalModes.contains "mean" = false
    ∧ parseMode "mean" = none := by decide

/-- C6, amended: the mode values selectable in the dashboard are exactly the
six canonical labels, produced by lowercasing the displayed names and
accepted case-insensitively by the aggregator parser; however, when a
callback receives no mode value the code falls back to the bare string
mean, which is not one of the six and parses to nothing. -/
theorem C6_amended :
    ratingModeValues = canonicalModes
    ∧ ratingModeLabels.all
        (fun lbl => (parseMode lbl == parseMode (lowerStr lbl)) && (parseMode lbl).isSome) = true
    ∧ resolveRatingMode none = "mean"
    ∧ parseMode "mean" = none := by decide

/-- C7: whenever the optimal-boundary branch succeeds, the calibrator was
invoked with exactly the target fractions 0.8, 0.6, 0.4, 0.2, the
resulting boundaries are installed, and a full recompute of the whole
corpus with those boundaries happens before the new state is returned, so
every rating the new state exposes is the classification of its index
under the new boundaries. -/
theorem C7_calibration_recompute (st st1 : VisState)
    (h : calcBoundsBranch st = Except.ok st1) :
    targetFracs = [(8 : ℚ)/10, (6 : ℚ)/10, (4 : ℚ)/10, (2 : ℚ)/10]
    ∧ calculate_optimal_boundaries st.summaries targetFracs = Except.ok st1.boundaries
    ∧ st1.summaries = rate_results st.summaries st.referenceName st1.boundaries
    ∧ stateConsistentB st1 = true := by
  unfold calcBoundsBranch at h
  cases hcal : calculate_optimal_boundaries st.summaries targetFracs with
  | error e => rw [hcal] at h; cases h
  | ok b =>
    rw [hcal] at h
    rw [Except.ok.injEq] at h
    subst h
    refine ⟨targetFracs_eq, rfl, rfl, ?_⟩
    exact stateConsistent_rated st.summaries st.referenceName b st.task st.xaxis
      st.yaxis st.referenceName

/-- C7, witness: the theorem applied to the concrete non-degenerate state. -/
theorem C7_witness :
    targetFracs = [(8 : ℚ)/10, (6 : ℚ)/10, (4 : ℚ)/10, (2 : ℚ)/10]
    ∧ calculate_optimal_boundaries stW.summaries targetFracs = Except.ok stW2.boundaries
    ∧ stW2.summaries = rate_results stW.summaries stW.referenceName stW2.boundaries
    ∧ stateConsistentB stW2 = true :=
  C7_calibration_recompute stW stW2 rfl

/-- C8: the weights update supports both call forms: with a scalar weight
and one metric it replaces exactly that metric weight in every summary,
and with a full map it replaces the weight of every listed metric at once;
in both forms the result is a new value in which every field other than
the targeted weights (values, indices, ratings, names, environments) is
unchanged. -/
theorem C8_update_weights_forms :
    (∀ (s : Summary) (w : ℚ) (m k : String),
        lookupStr k (applyW (WArg.single w m) s).metrics
          = (lookupStr k s.metrics).map
              (fun r => if k = m then { r with weight := w } else r))
    ∧ (∀ (s : Summary) (wm : List (String × ℚ)) (k : String),
        lookupStr k (applyW (WArg.bulk wm) s).metrics
          = (lookupStr k s.metrics).map (fun r =>
              match lookupStr k wm with
              | some w => { r with weight := w }
              | none => r))
    ∧ (∀ (a : WArg) (s : Summary),
        (applyW a s).name = s.name ∧ (applyW a s).environment = s.environment) := by
  refine ⟨?_, ?_, fun a s => ⟨rfl, rfl⟩⟩
  · intro s w m k
    rw [applyW_lookup]
    cases lookupStr k s.metrics with
    | none => rfl
    | some r =>
      simp only [Option.map_some']
      by_cases hk : k = m
      · simp [wAfter, hk]
      · simp [wAfter, hk]
  · intro s wm k
    rw [applyW_lookup]
    cases lookupStr k s.metrics with
    | none => rfl
    | some r =>
      simp only [Option.map_some']
      cases hw : lookupStr k wm with
      | some w => simp [wAfter, hw]
      | none => simp [wAfter, hw]

/-- C9: boundaries are stored per metric as five interval pairs, a slider
update writes each new cut value to both edges that share it (component 0
of interval 4-i and component 1 of interval 3-i), and the shared-endpoint
equality of adjacent intervals is an invariant: it is preserved by slider
updates over the whole store and established by the boundaries import and
by calibration. -/
theorem C9_shared_endpoints :
    (∀ (b : BIntervals) (v0 v1 v2 v3 : ℚ), b.length = 5 → adjacentB b = true →
        (((slideAxis b [v0, v1, v2, v3]).1.get? 4).map Prod.fst = some v0
          ∧ ((slideAxis b [v0, v1, v2, v3]).1.get? 3).map Prod.snd = some v0)
        ∧ (((slideAxis b [v0, v1, v2, v3]).1.get? 3).map Prod.fst = some v1
          ∧ ((slideAxis b [v0, v1, v2, v3]).1.get? 2).map Prod.snd = some v1)
        ∧ (((slideAxis b [v0, v1, v2, v3]).1.get? 2).map Prod.fst = some v2
          ∧ ((slideAxis b [v0, v1, v2, v3]).1.get? 1).map Prod.snd = some v2)
        ∧ (((slideAxis b [v0, v1, v2, v3]).1.get? 1).map Prod.fst = some v3
          ∧ ((slideAxis b [v0, v1, v2, v3]).1.get? 0).map Prod.snd = some v3)
        ∧ adjacentB (slideAxis b [v0, v1, v2, v3]).1 = true)
    ∧ (∀ (bs : BStore) (axes : List (String × List ℚ)),
        storeLens bs = true → storeAdjacent bs = true →
        (∀ av ∈ axes, ∃ v0 v1 v2 v3, av.2 = [v0, v1, v2, v3]) →
        storeAdjacent (slideStore bs axes).1 = true)
    ∧ (∀ (p : List (String × List ℚ)) (kv : String × BIntervals),
        kv ∈ (load_boundaries p).1 → adjacentB kv.2 = true)
    ∧ (∀ (S : TaskMap) (fracs : List ℚ) (bs : BStore),
        calculate_optimal_boundaries S fracs = Except.ok bs →
        ∀ kv ∈ bs, adjacentB kv.2 = true) := by
  refine ⟨?_, fun bs axes h1 h2 hax => (slideStore_adj axes bs h1 h2 hax).2,
    load_boundaries_adjacent, calibration_adjacent⟩
  intro b v0 v1 v2 v3 hlen hadj
  obtain ⟨p0, p1, p2, p3, p4, rfl⟩ := length_five hlen
  obtain ⟨a0, c0⟩ := p0
  obtain ⟨a1, c1⟩ := p1
  obtain ⟨a2, c2⟩ := p2
  obtain ⟨a3, c3⟩ := p3
  obtain ⟨a4, c4⟩ := p4
  obtain ⟨rfl, rfl, rfl, rfl⟩ := adjacentB_five hadj
  rw [slideAxis_char]
  exact ⟨⟨rfl, rfl⟩, ⟨rfl, rfl⟩, ⟨rfl, rfl⟩, ⟨rfl, rfl⟩, by simp [adjacentB]⟩

/-- C9, witness: the theorem applied at concrete inputs. -/
theorem C9_witness :
    ((((slideAxis bX slidersX).1.get? 4).map Prod.fst = some 3
        ∧ ((slideAxis bX slidersX).1.get? 3).map Prod.snd = some 3)
      ∧ (((slideAxis bX slidersX).1.get? 3).map Prod.fst = some 5
        ∧ ((slideAxis bX slidersX).1.get? 2).map Prod.snd = some 5)
      ∧ (((slideAxis bX slidersX).1.get? 2).map Prod.fst = some 7
        ∧ ((slideAxis bX slidersX).1.get? 1).map Prod.snd = some 7)
      ∧ (((slideAxis bX slidersX).1.get? 1).map Prod.fst = some 9
        ∧ ((slideAxis bX slidersX).1.get? 0).map Prod.snd = some 9)
      ∧ adjacentB (slideAxis bX slidersX).1 = true)
    ∧ storeAdjacent (slideStore [("top1_val", bX)] [("top1_val", slidersX)]).1 = true
    ∧ adjacentB (intervalsFromCuts [8, 6, 4, 2]) = true
    ∧ adjacentB (intervalsFromCuts [2, 2, 1, 1]) = true :=
  ⟨C9_shared_endpoints.1 bX 3 5 7 9 (by decide) (by decide),
   C9_shared_endpoints.2.1 [("top1_val", bX)] [("top1_val", slidersX)] (by decide) (by decide)
     (by
       intro av hav
       rcases List.mem_singleton.1 hav with rfl
       exact ⟨3, 5, 7, 9, rfl⟩),
   C9_shared_endpoints.2.2.1 pW ("top1_val", intervalsFromCuts [8, 6, 4, 2]) (by decide),
   C9_shared_endpoints.2.2.2 stW.summaries targetFracs bCal rfl
     ("top1_val", intervalsFromCuts [2, 2, 1, 1]) (by decide)⟩

/-- C10: every summary of a task stores the same weight for each metric:
the uniformity invariant is preserved by both weight-update forms and by
full reclassification, and under it the weight read from the first summary
of the first environment (update_metric_fields, elex.py lines 322-323)
equals the weight stored in any summary of the current task. -/
theorem C10_uniform_weights :
    (∀ (S : TaskMap) (a : WArg), uniformWeightsB S = true →
        uniformWeightsB (update_weights S a) = true)
    ∧ (∀ (S : TaskMap) (ref : String) (bs : BStore), uniformWeightsB S = true →
        uniformWeightsB (rate_results S ref bs) = true)
    ∧ (∀ (st : VisState) (envs : List (String × List Summary)) (s0 : Summary),
        uniformWeightsB st.summaries = true →
        lookupStr st.task st.summaries = some envs →
        anySummary st = some s0 →
        ∀ ev ∈ envs, ∀ s ∈ ev.2, ∀ (m : String) (r0 r : MRec),
          lookupStr m s0.metrics = some r0 → lookupStr m s.metrics = some r →
          r0.weight = r.weight) := by
  refine ⟨fun S a h => uniformWeights_update S a h,
    fun S ref bs h => uniformWeights_rate S ref bs h, ?_⟩
  intro st envs s0 hu hl ha ev hev s hs m r0 r h0 hr
  have hte : (st.task, envs) ∈ st.summaries := lookup_mem hl
  have htask : uniformTaskB envs = true := List.all_eq_true.1 hu (st.task, envs) hte
  have hm0 : s0 ∈ ((envs.map Prod.snd).flatten) := anySummary_mem st s0 envs hl ha
  have hmS : s ∈ ((envs.map Prod.snd).flatten) :=
    List.mem_flatten.2 ⟨ev.2, List.mem_map_of_mem Prod.snd hev, hs⟩
  have hagree : weightsAgreeB s0 s = true := by
    simp only [uniformTaskB, List.all_eq_true] at htask
    exact htask s0 hm0 s hmS
  have hin : (m, r0) ∈ s0.metrics := lookup_mem h0
  rw [weightsAgreeB] at hagree
  have hw := List.all_eq_true.1 hagree (m, r0) hin
  rw [hr] at hw
  simp only [Option.map_some', Option.getD_some, beq_iff_eq] at hw
  exact hw

/-- C10, witness: the theorem applied at concrete inputs. -/
theorem C10_witness :
    uniformWeightsB (update_weights stW.summaries (WArg.single 2 "top1_val")) = true
    ∧ uniformWeightsB (rate_results stW.summaries "ResNet101" bCal) = true
    ∧ (⟨some 75, some 1, some 2, 1⟩ : MRec).weight
        = (⟨some 150, some 2, some 0, 1⟩ : MRec).weight :=
  ⟨C10_uniform_weights.1 stW.summaries (WArg.single 2 "top1_val") (by decide),
   C10_uniform_weights.2.1 stW.summaries "ResNet101" bCal (by decide),
   C10_uniform_weights.2.2 stW [("E1", [sRef, sM])] sRef (by decide) (by decide) (by decide)
     ("E1", [sRef, sM]) (by decide) sM (by decide) "top1_val"
     ⟨some 75, some 1, some 2, 1⟩ ⟨some 150, some 2, some 0, 1⟩ (by decide) (by decide)⟩

end Elex
